import Mathlib

set_option maxHeartbeats 1000000

/-!
Verification development for `pxr/base/lib/tf/diagnosticMgr.h`
(TfDiagnosticMgr, the Tf diagnostic dispatcher).

The header under `src/` declares the dispatcher's interface and contains the
inline method bodies (`GetErrorBegin`, `GetErrorEnd`, `HasActiveErrorMark`,
`_CreateErrorMark`, `_DestroyErrorMark`); the out-of-line implementations
(`PostError`, `AppendError`, `EraseRange`, `_SpliceErrors`,
`_GetErrorMarkBegin`, `_RebuildErrorLogText`, `SetDelegate`, ...) are not part
of the sources, so those operations are modelled from the specification
(spec.md §3, §4.3–§4.7).

Modelling conventions:
- `TfError` records carry an error code, a commentary string, a quiet flag and
  a serial number; the call context and info payload are opaque and folded into
  the commentary for rendering purposes.
- A thread's error list is a `List TfError`; an `ErrorIterator` is a position
  (`Nat`) in that list, with `l.length` playing the role of the past-the-end
  iterator.
- Thread identity is a `Nat`; thread `0` is the main thread (the spec fixes
  main-thread identity for the lifetime of the process).
- Side effects (stderr lines, delegate callbacks, crash-log publication, the
  notice bus) are modelled as an explicit list of `Event`s returned alongside
  the new state.
-/

/-- A diagnostic record (`TfError`): error code, commentary, quiet flag and
the serial number stamped by the serial allocator. -/
structure TfError where
  errorCode : Nat
  commentary : String
  quiet : Bool
  serial : Nat
deriving DecidableEq, Repr

/-- Textual rendering of one record, as written to stderr and to the
crash-log text.  The exact format is opaque to this development; what matters
is that each record contributes one fixed chunk of text. -/
def render (e : TfError) : String :=
  e.commentary

/-- Concatenation of the renderings of a list of records, in list order. -/
def renderAll : List TfError → String
  | [] => ""
  | e :: rest => render e ++ renderAll rest

/-- Per-thread state: the error list, the lazily materialized crash-log text
(`_logText`, a `boost::scoped_ptr<std::string>` per thread, hence `Option`),
and the error-mark nesting count (`_errorMarkCounts`). -/
structure ThreadState where
  errorList : List TfError
  logText : Option String
  markCount : Nat
deriving DecidableEq, Repr

/-- A freshly created per-thread slot: `tbb::enumerable_thread_specific`
default-constructs the error list (empty), the log-text pointer (null) and the
mark count (zero) on first access by a thread. -/
def ThreadState.init : ThreadState :=
  { errorList := [], logText := none, markCount := 0 }

/-- The dispatcher singleton: the delegate (a weak pointer, hence `Option`,
with delegates identified by `Nat`), the global serial counter `_nextSerial`,
the `_quiet` flag, and the per-thread state map. -/
structure TfDiagnosticMgr where
  delegate : Option Nat
  nextSerial : Nat
  quiet : Bool
  threads : Nat → ThreadState

/-- The dispatcher at construction: no delegate, serial counter at zero, not
quiet, and every thread slot in its default-constructed state. -/
def initMgr : TfDiagnosticMgr :=
  { delegate := none, nextSerial := 0, quiet := false,
    threads := fun _ => ThreadState.init }

/-- Thread `0` is the main thread; main-thread identity is fixed for the
lifetime of the process. -/
def isMainThread (tid : Nat) : Bool :=
  tid == 0

/-- Observable side effects of dispatcher operations. -/
inductive Event where
  | stderrLine (text : String)
  | issueError (delegate : Nat) (e : TfError)
  | issueWarning (delegate : Nat) (text : String)
  | publishLogText (text : String)
  | notice (e : TfError)
deriving DecidableEq, Repr

/-- Append one record to a thread's list and concatenate its rendering onto
the crash-log text, materializing the text on first append (spec §4.6 main
branch and §4.7 "Append"). -/
def appendToThread (ts : ThreadState) (e : TfError) : ThreadState :=
  { ts with
    errorList := ts.errorList ++ [e],
    logText := some ((ts.logText.getD "") ++ render e) }

/-- Modelled from the spec: the body of `TfDiagnosticMgr::PostError` /
`ErrorHelper::Post` is not under `src/` (the header only declares it, with the
comment at lines 183–199).  Per spec §4.3 and §4.6: a record is built with a
fresh serial; on the main thread it is appended to the calling thread's list,
the crash-log text is updated and published, the delegate (if any) receives
`IssueError`, otherwise the record is printed to stderr unless quieted, a
notice is emitted, and an iterator to the appended record is returned; on any
other thread the record is rendered to stderr unconditionally, no list is
touched, no delegate is called, and the end iterator is returned. -/
def PostError (m : TfDiagnosticMgr) (tid : Nat) (errorCode : Nat)
    (commentary : String) (quietFlag : Bool) :
    TfDiagnosticMgr × List Event × Nat :=
  let e : TfError :=
    { errorCode := errorCode, commentary := commentary, quiet := quietFlag,
      serial := m.nextSerial }
  let m₁ := { m with nextSerial := m.nextSerial + 1 }
  if isMainThread tid then
    let ts := m₁.threads tid
    let ts' := appendToThread ts e
    let m₂ := { m₁ with threads := Function.update m₁.threads tid ts' }
    let deliver : List Event :=
      match m₁.delegate with
      | some d => [Event.issueError d e]
      | none => if !m₁.quiet && !quietFlag then [Event.stderrLine (render e)] else []
    (m₂,
     [Event.publishLogText (ts'.logText.getD "")] ++ deliver ++ [Event.notice e],
     ts.errorList.length)
  else
    (m₁, [Event.stderrLine (render e)], (m₁.threads tid).errorList.length)

/-- Modelled from the spec: the body of `TfDiagnosticMgr::AppendError` is not
under `src/`.  Per the header comment (lines 178–181) it appends an error to
the calling thread's list of active errors; per spec §3 the serial is assigned
by the serial allocator at append time, and per §4.7 the crash-log text is
extended by the record's rendering. -/
def AppendError (m : TfDiagnosticMgr) (tid : Nat) (errorCode : Nat)
    (commentary : String) (quietFlag : Bool) : TfDiagnosticMgr :=
  let e : TfError :=
    { errorCode := errorCode, commentary := commentary, quiet := quietFlag,
      serial := m.nextSerial }
  { m with
    nextSerial := m.nextSerial + 1,
    threads := Function.update m.threads tid (appendToThread (m.threads tid) e) }

/-- Modelled from the spec: the body of `TfDiagnosticMgr::EraseRange` is not
under `src/`.  Per spec §4.3 it removes `[first, last)` from the calling
thread's list and returns an iterator at `last`'s position (which, after the
erase, is position `first`); paired with the state update below.  At list
level: the remaining records are the ones before `first` and from `last` on,
in their original order. -/
def eraseRangeList (l : List TfError) (first last : Nat) : List TfError × Nat :=
  (l.take first ++ l.drop last, first)

/-- Modelled from the spec: `EraseRange` on the dispatcher.  Erasing triggers
a full rebuild of the crash-log text (`_RebuildErrorLogText`, spec §4.3 and
§4.7 "Erase interior": re-render the entire list).  An invalid iterator range
is undefined behavior in the source; the model leaves the state unchanged in
that case. -/
def EraseRange (m : TfDiagnosticMgr) (tid : Nat) (first last : Nat) :
    TfDiagnosticMgr × Nat :=
  let ts := m.threads tid
  if first ≤ last ∧ last ≤ ts.errorList.length then
    let newList := (eraseRangeList ts.errorList first last).1
    let ts' := { ts with
      errorList := newList,
      logText := ts.logText.map (fun _ => renderAll newList) }
    ({ m with threads := Function.update m.threads tid ts' }, first)
  else
    (m, first)

/-- Reassign fresh serials, in order, to a list of records about to be
spliced: the first record receives the current next-serial value, and the
counter advances once per record (spec §4.5 step 2). -/
def reassignSerials (nextSerial : Nat) : List TfError → Nat × List TfError
  | [] => (nextSerial, [])
  | e :: rest =>
    let r := reassignSerials (nextSerial + 1) rest
    (r.1, { e with serial := nextSerial } :: r.2)

/-- Modelled from the spec: the body of `TfDiagnosticMgr::_SpliceErrors` is
not under `src/` (header lines 360–363: splice the errors in `src` into this
thread's local list and reassign serial numbers to all the spliced errors).
Per spec §4.5 the records are appended to the destination tail in order with
freshly allocated serials, and the crash-log text is extended by their
renderings. -/
def SpliceErrors (m : TfDiagnosticMgr) (dstTid : Nat) (src : List TfError) :
    TfDiagnosticMgr :=
  let r := reassignSerials m.nextSerial src
  let ts := m.threads dstTid
  let ts' := { ts with
    errorList := ts.errorList ++ r.2,
    logText := some ((ts.logText.getD "") ++ renderAll r.2) }
  { m with nextSerial := r.1, threads := Function.update m.threads dstTid ts' }

/-- Modelled from the spec: an `ErrorTransport` hand-off (spec §4.5).  The
suffix of the source thread's list starting at position `k` is removed from
the source (whose crash-log text is rebuilt) and spliced into the destination
thread's list via `SpliceErrors`. -/
def ErrorTransportMove (m : TfDiagnosticMgr) (srcTid dstTid : Nat) (k : Nat) :
    TfDiagnosticMgr :=
  let ss := m.threads srcTid
  let moved := ss.errorList.drop k
  let remaining := ss.errorList.take k
  let ss' := { ss with
    errorList := remaining,
    logText := ss.logText.map (fun _ => renderAll remaining) }
  let m₁ := { m with threads := Function.update m.threads srcTid ss' }
  SpliceErrors m₁ dstTid moved

/-- Modelled from the spec: the body of `TfDiagnosticMgr::_GetErrorMarkBegin`
is not under `src/` (header lines 346–348: return an iterator to the first
error with serial number ≥ `mark`, or the past-the-end iterator if no such
errors exist).  Per spec §4.4 the lookup also returns the count of records in
the half-open mark region `[begin, end)`. -/
def GetErrorMarkBegin (l : List TfError) (mark : Nat) : Nat × Nat :=
  let i := l.findIdx (fun e => mark ≤ e.serial)
  (i, l.length - i)

/-- Modelled from the spec: `TfErrorMark::IsClean` for a mark with saved
serial `mark` over list `l`; per spec §4.4 the region lookup returns the count
`nErrors` to support fast `IsClean`, which holds exactly when that count is
zero. -/
def IsClean (l : List TfError) (mark : Nat) : Bool :=
  (GetErrorMarkBegin l mark).2 == 0

/-- From the header (line 351): `_CreateErrorMark` increments the calling
thread's `_errorMarkCounts` slot. -/
def CreateErrorMark (m : TfDiagnosticMgr) (tid : Nat) : TfDiagnosticMgr :=
  let ts := m.threads tid
  { m with
    threads := Function.update m.threads tid { ts with markCount := ts.markCount + 1 } }

/-- From the header (line 354): `_DestroyErrorMark` decrements the calling
thread's `_errorMarkCounts` slot and reports whether it reached zero. -/
def DestroyErrorMark (m : TfDiagnosticMgr) (tid : Nat) : TfDiagnosticMgr × Bool :=
  let ts := m.threads tid
  ({ m with
     threads := Function.update m.threads tid { ts with markCount := ts.markCount - 1 } },
   ts.markCount - 1 == 0)

/-- From the header (line 229): `HasActiveErrorMark` returns the calling
thread's `_errorMarkCounts` slot converted to `bool`, i.e. whether it is
nonzero. -/
def HasActiveErrorMark (m : TfDiagnosticMgr) (tid : Nat) : Bool :=
  (m.threads tid).markCount != 0

/-- From the header (line 159): `GetErrorBegin` returns an iterator to the
beginning of the calling thread's error list (position `0` in the model). -/
def GetErrorBegin (_ : TfDiagnosticMgr) (_ : Nat) : Nat :=
  0

/-- From the header (line 164): `GetErrorEnd` returns the past-the-end
iterator of the calling thread's error list (the list's length). -/
def GetErrorEnd (m : TfDiagnosticMgr) (tid : Nat) : Nat :=
  (m.threads tid).errorList.length

/-- Modelled from the spec: the body of `TfDiagnosticMgr::PostWarning` is not
under `src/`.  Per spec §4.6, on the main thread with a delegate installed the
warning goes to the delegate; otherwise it is printed to stderr unless
quieted.  Warnings are never stored. -/
def PostWarning (m : TfDiagnosticMgr) (tid : Nat) (commentary : String)
    (quietFlag : Bool) : TfDiagnosticMgr × List Event :=
  let m₁ := { m with nextSerial := m.nextSerial + 1 }
  match isMainThread tid, m.delegate with
  | true, some d => (m₁, [Event.issueWarning d commentary])
  | _, _ =>
    (m₁, if !m.quiet && !quietFlag then [Event.stderrLine commentary] else [])

/-- Modelled from the spec: the body of `TfDiagnosticMgr::SetDelegate` is not
under `src/` (header lines 138–149: only one delegate may be registered; the
implementation overwrites the delegate but prints a warning when doing so).
Per spec §4.3 and §7: if a delegate is already installed, a warning is emitted
through the normal Post path (reaching the still-installed old delegate) and
then the new delegate replaces the old; a null argument clears the
delegate. -/
def SetDelegate (m : TfDiagnosticMgr) (d : Option Nat) :
    TfDiagnosticMgr × List Event :=
  match m.delegate with
  | some _ =>
    let r := PostWarning m 0 "Overwriting existing delegate" false
    ({ r.1 with delegate := d }, r.2)
  | none => ({ m with delegate := d }, [])

/-- From the header (line 154): `SetQuiet` sets the `_quiet` flag. -/
def SetQuiet (m : TfDiagnosticMgr) (b : Bool) : TfDiagnosticMgr :=
  { m with quiet := b }

/-- The dispatcher operations whose interleavings the invariants quantify
over.  Each carries the identity of the calling thread where relevant. -/
inductive Op where
  | postError (tid errorCode : Nat) (commentary : String) (quietFlag : Bool)
  | appendError (tid errorCode : Nat) (commentary : String) (quietFlag : Bool)
  | eraseRange (tid first last : Nat)
  | transport (srcTid dstTid k : Nat)
  | createMark (tid : Nat)
  | destroyMark (tid : Nat)
  | setDelegate (d : Option Nat)
  | setQuiet (b : Bool)
deriving DecidableEq, Repr

/-- One dispatcher step: execute an operation, keeping only the state. -/
def step (m : TfDiagnosticMgr) : Op → TfDiagnosticMgr
  | Op.postError tid errorCode commentary quietFlag =>
    (PostError m tid errorCode commentary quietFlag).1
  | Op.appendError tid errorCode commentary quietFlag =>
    AppendError m tid errorCode commentary quietFlag
  | Op.eraseRange tid first last => (EraseRange m tid first last).1
  | Op.transport srcTid dstTid k => ErrorTransportMove m srcTid dstTid k
  | Op.createMark tid => CreateErrorMark m tid
  | Op.destroyMark tid => (DestroyErrorMark m tid).1
  | Op.setDelegate d => (SetDelegate m d).1
  | Op.setQuiet b => SetQuiet m b

/-- Run a sequence of dispatcher operations from a starting state. -/
def run (m : TfDiagnosticMgr) (ops : List Op) : TfDiagnosticMgr :=
  ops.foldl step m

/-! ## Invariants -/

/-- Serial numbers strictly increase along a list (spec §3: insertion order
equals serial order). -/
abbrev SerialsSorted (l : List TfError) : Prop :=
  l.Pairwise (fun a b => a.serial < b.serial)

/-- Every serial in the list was handed out by the allocator, hence is below
the next-serial value. -/
def SerialsBounded (n : Nat) (l : List TfError) : Prop :=
  ∀ e ∈ l, e.serial < n

/-- The crash-log text mirrors the list: absent only while the list has never
been appended to (hence empty), and when present equal to the concatenation of
the renderings of the current records in order (spec §3, §4.7). -/
def LogOk (ts : ThreadState) : Prop :=
  (ts.logText = none → ts.errorList = []) ∧
  (∀ t, ts.logText = some t → t = renderAll ts.errorList)

/-- Per-thread invariant relative to the allocator position. -/
def ThreadInv (n : Nat) (ts : ThreadState) : Prop :=
  SerialsSorted ts.errorList ∧ SerialsBounded n ts.errorList ∧ LogOk ts

/-- Dispatcher invariant: every thread slot satisfies the per-thread
invariant at the current allocator position. -/
def MgrInv (m : TfDiagnosticMgr) : Prop :=
  ∀ tid, ThreadInv m.nextSerial (m.threads tid)

theorem renderAll_append (l₁ l₂ : List TfError) :
    renderAll (l₁ ++ l₂) = renderAll l₁ ++ renderAll l₂ := by
  induction l₁ with
  | nil => simp [renderAll]
  | cons e rest ih => simp [renderAll, ih, String.append_assoc]

theorem threadInv_mono {n n' : Nat} {ts : ThreadState} (hle : n ≤ n')
    (h : ThreadInv n ts) : ThreadInv n' ts :=
  ⟨h.1, fun e he => lt_of_lt_of_le (h.2.1 e he) hle, h.2.2⟩

theorem threadInv_init (n : Nat) : ThreadInv n ThreadState.init := by
  refine ⟨?_, ?_, ?_⟩ <;> simp [ThreadState.init, SerialsSorted, SerialsBounded, LogOk]

theorem mgrInv_initMgr : MgrInv initMgr := fun _ => threadInv_init 0

theorem threadInv_appendToThread {n : Nat} {ts : ThreadState} {e : TfError}
    (h : ThreadInv n ts) (he : e.serial = n) :
    ThreadInv (n + 1) (appendToThread ts e) := by
  obtain ⟨hs, hb, hl⟩ := h
  refine ⟨?_, ?_, ?_⟩
  · unfold SerialsSorted appendToThread
    rw [List.pairwise_append]
    exact ⟨hs, List.pairwise_singleton _ _,
      fun a ha b hb' => by
        simp only [List.mem_singleton] at hb'
        subst hb'
        rw [he]
        exact hb a ha⟩
  · intro x hx
    simp only [appendToThread, List.mem_append, List.mem_singleton] at hx
    rcases hx with hx | hx
    · exact lt_of_lt_of_le (hb x hx) (Nat.le_succ n)
    · subst hx; rw [he]; exact Nat.lt_succ_self n
  · obtain ⟨hnone, hsome⟩ := hl
    refine ⟨fun hco => by simp [appendToThread] at hco, ?_⟩
    intro t ht
    simp only [appendToThread, Option.some.injEq] at ht
    cases hlog : ts.logText with
    | none =>
      rw [hlog] at ht
      simp only [appendToThread]
      rw [hnone hlog, ← ht]
      simp [renderAll]
    | some t₀ =>
      rw [hlog] at ht
      simp only [appendToThread]
      rw [renderAll_append, ← hsome t₀ hlog, ← ht]
      simp [renderAll]

theorem eraseRange_sublist (l : List TfError) {first last : Nat}
    (h : first ≤ last) : List.Sublist (l.take first ++ l.drop last) l := by
  conv_rhs => rw [← List.take_append_drop last l]
  refine List.Sublist.append ?_ (List.Sublist.refl _)
  have : l.take first = (l.take last).take first := by
    rw [List.take_take, Nat.min_eq_left h]
  rw [this]
  exact List.take_sublist _ _

theorem reassignSerials_fst (n : Nat) (l : List TfError) :
    (reassignSerials n l).1 = n + l.length := by
  induction l generalizing n with
  | nil => simp [reassignSerials]
  | cons e rest ih =>
    simp [reassignSerials, ih, Nat.add_comm, Nat.add_assoc, Nat.add_left_comm]

theorem reassignSerials_length (n : Nat) (l : List TfError) :
    (reassignSerials n l).2.length = l.length := by
  induction l generalizing n with
  | nil => rfl
  | cons e rest ih => simp [reassignSerials, ih]

theorem reassignSerials_serial_bounds (n : Nat) (l : List TfError) :
    ∀ e ∈ (reassignSerials n l).2, n ≤ e.serial ∧ e.serial < n + l.length := by
  induction l generalizing n with
  | nil => intro e he; simp [reassignSerials] at he
  | cons x rest ih =>
    intro e he
    simp only [reassignSerials, List.mem_cons] at he
    rcases he with he | he
    · subst he
      exact ⟨Nat.le_refl n, by simp [Nat.lt_add_of_pos_right, Nat.succ_pos]⟩
    · obtain ⟨h1, h2⟩ := ih (n + 1) e he
      refine ⟨Nat.le_trans (Nat.le_succ n) h1, ?_⟩
      calc e.serial < n + 1 + rest.length := h2
        _ = n + (x :: rest).length := by simp [Nat.add_comm, Nat.add_assoc, Nat.add_left_comm]

theorem reassignSerials_sorted (n : Nat) (l : List TfError) :
    SerialsSorted (reassignSerials n l).2 := by
  induction l generalizing n with
  | nil => exact List.Pairwise.nil
  | cons x rest ih =>
    unfold SerialsSorted at ih ⊢
    simp only [reassignSerials]
    refine List.Pairwise.cons ?_ (ih (n + 1))
    intro e he
    have := (reassignSerials_serial_bounds (n + 1) rest e he).1
    simpa using Nat.lt_of_lt_of_le (Nat.lt_succ_self n) this

theorem reassignSerials_payload (n : Nat) (l : List TfError) :
    (reassignSerials n l).2.map (fun e => (e.errorCode, e.commentary, e.quiet)) =
      l.map (fun e => (e.errorCode, e.commentary, e.quiet)) := by
  induction l generalizing n with
  | nil => rfl
  | cons x rest ih => simp [reassignSerials, ih]

theorem threadInv_markCount {n : Nat} {ts : ThreadState} {k : Nat}
    (h : ThreadInv n ts) : ThreadInv n { ts with markCount := k } :=
  h

theorem threadInv_restrict {n : Nat} {ts : ThreadState} {l₂ : List TfError}
    (h : ThreadInv n ts) (hsub : List.Sublist l₂ ts.errorList) :
    ThreadInv n
      { ts with errorList := l₂, logText := ts.logText.map (fun _ => renderAll l₂) } := by
  obtain ⟨hs, hb, hnone, hsome⟩ := h
  refine ⟨List.Pairwise.sublist hsub hs, fun e he => hb e (hsub.subset he), ?_, ?_⟩
  · intro hmap
    cases hlog : ts.logText with
    | none =>
      have := hnone hlog
      rw [this] at hsub
      exact List.sublist_nil.mp hsub
    | some t₀ =>
      rw [hlog] at hmap
      simp at hmap
  · intro t ht
    cases hlog : ts.logText with
    | none =>
      rw [hlog] at ht
      simp at ht
    | some t₀ =>
      rw [hlog] at ht
      simp only [Option.map, Option.some.injEq] at ht
      exact ht.symm

theorem threadInv_spliceDst {n : Nat} {ts : ThreadState} (src : List TfError)
    (h : ThreadInv n ts) :
    ThreadInv (n + src.length)
      { ts with
        errorList := ts.errorList ++ (reassignSerials n src).2,
        logText := some ((ts.logText.getD "") ++ renderAll (reassignSerials n src).2) } := by
  obtain ⟨hs, hb, hnone, hsome⟩ := h
  refine ⟨?_, ?_, ?_, ?_⟩
  · unfold SerialsSorted
    rw [List.pairwise_append]
    refine ⟨hs, reassignSerials_sorted n src, ?_⟩
    intro a ha b hbm
    have := (reassignSerials_serial_bounds n src b hbm).1
    exact Nat.lt_of_lt_of_le (hb a ha) this
  · intro e he
    rcases List.mem_append.mp he with he | he
    · exact Nat.lt_of_lt_of_le (hb e he) (Nat.le_add_right n src.length)
    · exact (reassignSerials_serial_bounds n src e he).2
  · intro hco; simp at hco
  · intro t ht
    simp only [Option.some.injEq] at ht
    subst ht
    cases hlog : ts.logText with
    | none =>
      rw [hnone hlog]
      simp [renderAll]
    | some t₀ =>
      rw [renderAll_append, ← hsome t₀ hlog]
      simp

theorem threadInv_update {m : TfDiagnosticMgr} {tid : Nat} {ts' : ThreadState}
    {n' : Nat} (h : MgrInv m) (hle : m.nextSerial ≤ n') (hts : ThreadInv n' ts') :
    ∀ t, ThreadInv n' (Function.update m.threads tid ts' t) := by
  intro t
  by_cases htt : t = tid
  · subst htt; rw [Function.update_same]; exact hts
  · rw [Function.update_noteq htt]; exact threadInv_mono hle (h t)

theorem mgrInv_postError {m : TfDiagnosticMgr} (tid errorCode : Nat)
    (commentary : String) (quietFlag : Bool) (h : MgrInv m) :
    MgrInv (PostError m tid errorCode commentary quietFlag).1 := by
  by_cases htid : tid = 0
  · subst htid
    intro t
    simp only [PostError, isMainThread, beq_self_eq_true, if_true]
    exact threadInv_update h (Nat.le_succ _)
      (threadInv_appendToThread (h 0) rfl) t
  · intro t
    simp only [PostError, isMainThread, beq_iff_eq, htid, if_false]
    exact threadInv_mono (Nat.le_succ _) (h t)

theorem mgrInv_appendError {m : TfDiagnosticMgr} (tid errorCode : Nat)
    (commentary : String) (quietFlag : Bool) (h : MgrInv m) :
    MgrInv (AppendError m tid errorCode commentary quietFlag) := by
  intro t
  simp only [AppendError]
  exact threadInv_update h (Nat.le_succ _)
    (threadInv_appendToThread (h tid) rfl) t

theorem mgrInv_eraseRange {m : TfDiagnosticMgr} (tid first last : Nat)
    (h : MgrInv m) : MgrInv (EraseRange m tid first last).1 := by
  unfold EraseRange
  by_cases hv : first ≤ last ∧ last ≤ (m.threads tid).errorList.length
  · simp only [hv, if_true]
    intro t
    exact threadInv_update h (Nat.le_refl _)
      (threadInv_restrict (h tid) (eraseRange_sublist _ hv.1)) t
  · simp only [hv, if_false]
    exact h

theorem mgrInv_spliceErrors {m : TfDiagnosticMgr} (dstTid : Nat)
    (src : List TfError) (h : MgrInv m) : MgrInv (SpliceErrors m dstTid src) := by
  intro t
  simp only [SpliceErrors, reassignSerials_fst]
  exact threadInv_update h (Nat.le_add_right _ _)
    (threadInv_spliceDst src (h dstTid)) t

theorem mgrInv_errorTransport {m : TfDiagnosticMgr} (srcTid dstTid k : Nat)
    (h : MgrInv m) : MgrInv (ErrorTransportMove m srcTid dstTid k) := by
  unfold ErrorTransportMove
  refine mgrInv_spliceErrors dstTid _ ?_
  intro t
  exact threadInv_update h (Nat.le_refl _)
    (threadInv_restrict (h srcTid)
      (by simpa using List.take_sublist k (m.threads srcTid).errorList)) t

theorem mgrInv_setDelegate {m : TfDiagnosticMgr} (d : Option Nat)
    (h : MgrInv m) : MgrInv (SetDelegate m d).1 := by
  unfold SetDelegate
  cases hdel : m.delegate with
  | none => exact h
  | some old =>
    simp only [PostWarning, hdel]
    intro t
    exact threadInv_mono (Nat.le_succ _) (h t)

theorem mgrInv_step {m : TfDiagnosticMgr} (op : Op) (h : MgrInv m) :
    MgrInv (step m op) := by
  cases op with
  | postError tid errorCode commentary quietFlag =>
    exact mgrInv_postError tid errorCode commentary quietFlag h
  | appendError tid errorCode commentary quietFlag =>
    exact mgrInv_appendError tid errorCode commentary quietFlag h
  | eraseRange tid first last => exact mgrInv_eraseRange tid first last h
  | transport srcTid dstTid k => exact mgrInv_errorTransport srcTid dstTid k h
  | createMark tid =>
    intro t
    exact threadInv_update h (Nat.le_refl _) (threadInv_markCount (h tid)) t
  | destroyMark tid =>
    intro t
    exact threadInv_update h (Nat.le_refl _) (threadInv_markCount (h tid)) t
  | setDelegate d => exact mgrInv_setDelegate d h
  | setQuiet b => exact h

theorem mgrInv_run (m : TfDiagnosticMgr) (ops : List Op) (h : MgrInv m) :
    MgrInv (run m ops) := by
  induction ops generalizing m with
  | nil => exact h
  | cons op rest ih => exact ih (step m op) (mgrInv_step op h)

/-! ## Claim theorems -/

/-- C1: every call to the posting operation (`PostError` via
`ErrorHelper::Post`) returns an iterator to the record just appended to the
calling thread's error list when the caller is the main thread (the record is
appended at the old end, and the returned position holds it), and returns the
end iterator of that (unchanged) list when the caller is any other thread. -/
theorem postError_returns_appended_or_end (m : TfDiagnosticMgr)
    (tid errorCode : Nat) (commentary : String) (quietFlag : Bool) :
    (isMainThread tid = true →
      (PostError m tid errorCode commentary quietFlag).2.2 =
          (m.threads tid).errorList.length ∧
      ((PostError m tid errorCode commentary quietFlag).1.threads tid).errorList =
        (m.threads tid).errorList ++
          [{ errorCode := errorCode, commentary := commentary,
             quiet := quietFlag, serial := m.nextSerial }] ∧
      (((PostError m tid errorCode commentary quietFlag).1.threads tid).errorList.drop
          (PostError m tid errorCode commentary quietFlag).2.2) =
        [{ errorCode := errorCode, commentary := commentary,
           quiet := quietFlag, serial := m.nextSerial }]) ∧
    (isMainThread tid = false →
      (PostError m tid errorCode commentary quietFlag).2.2 =
        GetErrorEnd (PostError m tid errorCode commentary quietFlag).1 tid) := by
  constructor
  · intro h
    refine ⟨?_, ?_, ?_⟩
    · simp [PostError, h]
    · simp [PostError, h, appendToThread]
    · simp [PostError, h, appendToThread, List.drop_left]
  · intro h
    simp [PostError, h, GetErrorEnd]

theorem postError_returns_appended_or_end_witness :
    (isMainThread 0 = true ∧
      (PostError initMgr 0 7 "boom" false).2.2 =
        (initMgr.threads 0).errorList.length) ∧
    (isMainThread 3 = false ∧
      (PostError initMgr 3 7 "boom" false).2.2 =
        GetErrorEnd (PostError initMgr 3 7 "boom" false).1 3) :=
  ⟨⟨by decide,
    ((postError_returns_appended_or_end initMgr 0 7 "boom" false).1 (by decide)).1⟩,
   ⟨by decide,
    (postError_returns_appended_or_end initMgr 3 7 "boom" false).2 (by decide)⟩⟩

/-- C2: a `PostError` call on a non-main thread renders the error to stderr
only: no thread's error list changes, the emitted events are exactly one
stderr line, and no delegate callback is issued even when a delegate is
installed (the statement holds for every `m`, in particular those with
`delegate = some d`). -/
theorem postError_offMain_stderr_only (m : TfDiagnosticMgr)
    (tid errorCode : Nat) (commentary : String) (quietFlag : Bool)
    (h : isMainThread tid = false) :
    (PostError m tid errorCode commentary quietFlag).1.threads = m.threads ∧
    (PostError m tid errorCode commentary quietFlag).2.1 =
      [Event.stderrLine (render { errorCode := errorCode,
                                  commentary := commentary,
                                  quiet := quietFlag,
                                  serial := m.nextSerial })] ∧
    (∀ d e, Event.issueError d e ∉
        (PostError m tid errorCode commentary quietFlag).2.1) := by
  refine ⟨?_, ?_, ?_⟩ <;> simp [PostError, h]

theorem postError_offMain_stderr_only_witness :
    isMainThread 2 = false ∧
    ((PostError { initMgr with delegate := some 7 } 2 1 "x" false).1.threads =
        ({ initMgr with delegate := some 7 } : TfDiagnosticMgr).threads ∧
      (PostError { initMgr with delegate := some 7 } 2 1 "x" false).2.1 =
        [Event.stderrLine (render { errorCode := 1, commentary := "x",
                                    quiet := false,
                                    serial := ({ initMgr with delegate := some 7 } :
                                      TfDiagnosticMgr).nextSerial })] ∧
      (∀ d e, Event.issueError d e ∉
          (PostError { initMgr with delegate := some 7 } 2 1 "x" false).2.1)) :=
  ⟨by decide,
   postError_offMain_stderr_only { initMgr with delegate := some 7 } 2 1 "x" false
     (by decide)⟩

/-- C3: after any sequence of dispatcher operations (Post, AppendError,
EraseRange, ErrorTransport splice, mark operations, delegate changes), any
two records at positions `i < j` of any thread's error list have strictly
increasing serials; spliced records receive freshly allocated serials, so the
invariant is preserved across transports as well. -/
theorem run_errorList_serials_increase (ops : List Op) (tid i j : Nat)
    (hij : i < j) (hj : j < ((run initMgr ops).threads tid).errorList.length) :
    (((run initMgr ops).threads tid).errorList.get ⟨i, Nat.lt_trans hij hj⟩).serial <
      (((run initMgr ops).threads tid).errorList.get ⟨j, hj⟩).serial := by
  have hs : SerialsSorted ((run initMgr ops).threads tid).errorList :=
    (mgrInv_run initMgr ops mgrInv_initMgr tid).1
  exact List.pairwise_iff_get.mp hs ⟨i, Nat.lt_trans hij hj⟩ ⟨j, hj⟩ hij

theorem run_errorList_serials_increase_witness :
    (0 : Nat) < 1 ∧
    1 < ((run initMgr
          [Op.postError 0 1 "a" false, Op.appendError 2 2 "b" false,
           Op.appendError 2 3 "c" false, Op.transport 2 0 1]).threads 0).errorList.length ∧
    (((run initMgr
          [Op.postError 0 1 "a" false, Op.appendError 2 2 "b" false,
           Op.appendError 2 3 "c" false, Op.transport 2 0 1]).threads 0).errorList.get
        ⟨0, by decide⟩).serial <
      (((run initMgr
          [Op.postError 0 1 "a" false, Op.appendError 2 2 "b" false,
           Op.appendError 2 3 "c" false, Op.transport 2 0 1]).threads 0).errorList.get
        ⟨1, by decide⟩).serial :=
  ⟨by decide, by decide,
   run_errorList_serials_increase
     [Op.postError 0 1 "a" false, Op.appendError 2 2 "b" false,
      Op.appendError 2 3 "c" false, Op.transport 2 0 1] 0 0 1
     (by decide) (by decide)⟩

/-- C7: after any sequence of dispatcher operations, each thread's crash-log
text, when present, equals the concatenation of the textual renderings of the
records currently in that thread's error list, in list order; interior erases
maintain this by re-rendering the entire list (`_RebuildErrorLogText`). -/
theorem run_logText_mirrors_errorList (ops : List Op) (tid : Nat) (t : String)
    (h : ((run initMgr ops).threads tid).logText = some t) :
    t = renderAll ((run initMgr ops).threads tid).errorList :=
  (mgrInv_run initMgr ops mgrInv_initMgr tid).2.2.2 t h

theorem run_logText_mirrors_errorList_witness :
    ((run initMgr
        [Op.postError 0 1 "a" false, Op.postError 0 2 "b" false,
         Op.postError 0 3 "c" false, Op.eraseRange 0 1 2]).threads 0).logText =
      some "ac" ∧
    "ac" = renderAll ((run initMgr
        [Op.postError 0 1 "a" false, Op.postError 0 2 "b" false,
         Op.postError 0 3 "c" false, Op.eraseRange 0 1 2]).threads 0).errorList :=
  ⟨by decide,
   run_logText_mirrors_errorList
     [Op.postError 0 1 "a" false, Op.postError 0 2 "b" false,
      Op.postError 0 3 "c" false, Op.eraseRange 0 1 2] 0 "ac" (by decide)⟩

theorem findIdx_take_not {α : Type} (p : α → Bool) (l : List α) :
    ∀ e ∈ l.take (l.findIdx p), p e = false := by
  induction l with
  | nil => simp
  | cons x xs ih =>
    intro e he
    rw [List.findIdx_cons] at he
    cases hp : p x with
    | true => simp [hp] at he
    | false =>
      rw [hp] at he
      simp only [cond_false, List.take_succ_cons, List.mem_cons] at he
      rcases he with he | he
      · subst he; exact hp
      · exact ih e he

theorem sorted_drop_findIdx (l : List TfError) (mark : Nat)
    (hs : SerialsSorted l) :
    ∀ e ∈ l.drop (l.findIdx (fun e => mark ≤ e.serial)), mark ≤ e.serial := by
  induction l with
  | nil => simp
  | cons x xs ih =>
    intro e he
    rw [List.findIdx_cons] at he
    by_cases hp : mark ≤ x.serial
    · rw [decide_eq_true hp] at he
      simp only [cond_true, List.drop_zero, List.mem_cons] at he
      rcases he with he | he
      · subst he; exact hp
      · have hlt := (List.pairwise_cons.mp hs).1 e he
        exact Nat.le_trans hp (Nat.le_of_lt hlt)
    · rw [decide_eq_false hp] at he
      simp only [cond_false, List.drop_succ_cons] at he
      exact ih (List.pairwise_cons.mp hs).2 e he

/-- C4: for a mark with saved serial `mark` over a (serial-sorted) error
list, `IsClean` holds exactly when no record has serial ≥ `mark`; the
mark-region lookup `_GetErrorMarkBegin` returns a position that is within
bounds, before which every record has serial < `mark`, from which on every
record has serial ≥ `mark`, and which is past-the-end exactly when no such
record exists, together with the count of records in the region `[begin,
end)` (which equals the number of records with serial ≥ `mark`). -/
theorem errorMark_region_spec (l : List TfError) (mark : Nat)
    (hs : SerialsSorted l) :
    (IsClean l mark = true ↔ ¬ ∃ e ∈ l, mark ≤ e.serial) ∧
    (GetErrorMarkBegin l mark).1 ≤ l.length ∧
    (∀ e ∈ l.take (GetErrorMarkBegin l mark).1, e.serial < mark) ∧
    (∀ e ∈ l.drop (GetErrorMarkBegin l mark).1, mark ≤ e.serial) ∧
    ((GetErrorMarkBegin l mark).1 = l.length ↔ ¬ ∃ e ∈ l, mark ≤ e.serial) ∧
    (GetErrorMarkBegin l mark).2 = (l.drop (GetErrorMarkBegin l mark).1).length ∧
    (GetErrorMarkBegin l mark).2 = l.countP (fun e => mark ≤ e.serial) := by
  have hle : l.findIdx (fun e => decide (mark ≤ e.serial)) ≤ l.length :=
    List.findIdx_le_length _
  have hiff : l.findIdx (fun e => decide (mark ≤ e.serial)) = l.length ↔
      ¬ ∃ e ∈ l, mark ≤ e.serial := by
    rw [List.findIdx_eq_length]
    simp
  have htake : ∀ e ∈ l.take (GetErrorMarkBegin l mark).1, e.serial < mark := by
    intro e he
    simp only [GetErrorMarkBegin] at he
    have := findIdx_take_not (fun e => decide (mark ≤ e.serial)) l e he
    exact Nat.lt_of_not_le (of_decide_eq_false this)
  have hdrop : ∀ e ∈ l.drop (GetErrorMarkBegin l mark).1, mark ≤ e.serial := by
    intro e he
    simp only [GetErrorMarkBegin] at he
    exact sorted_drop_findIdx l mark hs e he
  refine ⟨?_, hle, htake, hdrop, hiff, ?_, ?_⟩
  · unfold IsClean GetErrorMarkBegin
    simp only [beq_iff_eq, Nat.sub_eq_zero_iff_le]
    constructor
    · intro h
      exact hiff.mp (Nat.le_antisymm hle h)
    · intro h
      exact Nat.le_of_eq (hiff.mpr h).symm
  · simp [GetErrorMarkBegin]
  · have hsplit : l.countP (fun e => decide (mark ≤ e.serial)) =
        (l.take (GetErrorMarkBegin l mark).1).countP (fun e => decide (mark ≤ e.serial)) +
        (l.drop (GetErrorMarkBegin l mark).1).countP (fun e => decide (mark ≤ e.serial)) := by
      rw [← List.countP_append, List.take_append_drop]
    have h0 : (l.take (GetErrorMarkBegin l mark).1).countP
        (fun e => decide (mark ≤ e.serial)) = 0 := by
      rw [List.countP_eq_zero]
      intro e he
      simpa using Nat.not_le.mpr (htake e he)
    have hfull : (l.drop (GetErrorMarkBegin l mark).1).countP
        (fun e => decide (mark ≤ e.serial)) =
        (l.drop (GetErrorMarkBegin l mark).1).length := by
      rw [List.countP_eq_length]
      intro e he
      simpa using hdrop e he
    rw [hsplit, h0, hfull, Nat.zero_add, List.length_drop]
    simp [GetErrorMarkBegin]

/-- Concrete serial-sorted list used by witnesses. -/
def sampleSortedList : List TfError :=
  [{ errorCode := 1, commentary := "a", quiet := false, serial := 0 },
   { errorCode := 2, commentary := "b", quiet := false, serial := 1 },
   { errorCode := 3, commentary := "c", quiet := false, serial := 2 }]

theorem errorMark_region_spec_witness :
    SerialsSorted sampleSortedList ∧
    ((IsClean sampleSortedList 1 = true ↔ ¬ ∃ e ∈ sampleSortedList, 1 ≤ e.serial) ∧
     (GetErrorMarkBegin sampleSortedList 1).1 ≤ sampleSortedList.length ∧
     (∀ e ∈ sampleSortedList.take (GetErrorMarkBegin sampleSortedList 1).1,
       e.serial < 1) ∧
     (∀ e ∈ sampleSortedList.drop (GetErrorMarkBegin sampleSortedList 1).1,
       1 ≤ e.serial) ∧
     ((GetErrorMarkBegin sampleSortedList 1).1 = sampleSortedList.length ↔
       ¬ ∃ e ∈ sampleSortedList, 1 ≤ e.serial) ∧
     (GetErrorMarkBegin sampleSortedList 1).2 =
       (sampleSortedList.drop (GetErrorMarkBegin sampleSortedList 1).1).length ∧
     (GetErrorMarkBegin sampleSortedList 1).2 =
       sampleSortedList.countP (fun e => 1 ≤ e.serial)) :=
  ⟨by decide, errorMark_region_spec sampleSortedList 1 (by decide)⟩

/-- C6: for a valid iterator pair `(first, last)` into a thread's error list,
`EraseRange` removes exactly the records at positions `[first, last)` (the
list decomposes into the kept front, the removed slice, and the kept tail, and
the result is a sublist, so the relative order of all remaining records is
preserved), and the returned iterator sits at `last`'s position: everything
from the returned position on is exactly what followed the erased range. -/
theorem eraseRange_list_spec (l : List TfError) (first last : Nat)
    (h1 : first ≤ last) (h2 : last ≤ l.length) :
    (eraseRangeList l first last).2 = first ∧
    (eraseRangeList l first last).1 = l.take first ++ l.drop last ∧
    l.take first ++ (l.take last).drop first ++ l.drop last = l ∧
    List.Sublist (eraseRangeList l first last).1 l ∧
    (eraseRangeList l first last).1.length + (last - first) = l.length ∧
    (eraseRangeList l first last).1.drop (eraseRangeList l first last).2 =
      l.drop last := by
  refine ⟨rfl, rfl, ?_, eraseRange_sublist l h1, ?_, ?_⟩
  · have ht : l.take first = (l.take last).take first := by
      rw [List.take_take, Nat.min_eq_left h1]
    rw [ht, List.take_append_drop, List.take_append_drop]
  · simp only [eraseRangeList, List.length_append, List.length_take,
      List.length_drop]
    omega
  · simp only [eraseRangeList]
    rw [List.drop_left' (by rw [List.length_take]; omega)]

theorem eraseRange_list_spec_witness :
    ((1 : Nat) ≤ 2 ∧ 2 ≤ sampleSortedList.length) ∧
    ((eraseRangeList sampleSortedList 1 2).2 = 1 ∧
     (eraseRangeList sampleSortedList 1 2).1 =
       sampleSortedList.take 1 ++ sampleSortedList.drop 2 ∧
     sampleSortedList.take 1 ++ (sampleSortedList.take 2).drop 1 ++
       sampleSortedList.drop 2 = sampleSortedList ∧
     List.Sublist (eraseRangeList sampleSortedList 1 2).1 sampleSortedList ∧
     (eraseRangeList sampleSortedList 1 2).1.length + (2 - 1) =
       sampleSortedList.length ∧
     (eraseRangeList sampleSortedList 1 2).1.drop
       (eraseRangeList sampleSortedList 1 2).2 = sampleSortedList.drop 2) :=
  ⟨⟨by decide, by decide⟩, eraseRange_list_spec sampleSortedList 1 2
    (by decide) (by decide)⟩

/-- The payload of a record: everything except the (reassignable) serial. -/
def payload (e : TfError) : Nat × String × Bool :=
  (e.errorCode, e.commentary, e.quiet)

/-- C5: an ErrorTransport of the suffix starting at position `k` of the
source thread's list into a (distinct) destination thread: the destination
list keeps its old records and ends with the transported records in their
original order (same payloads), every transported record's freshly allocated
serial is strictly greater than every serial previously in the destination
list, and the source list retains only the records before `k`. -/
theorem errorTransport_spec (m : TfDiagnosticMgr) (srcTid dstTid k : Nat)
    (hne : srcTid ≠ dstTid)
    (hdst : ∀ e ∈ (m.threads dstTid).errorList, e.serial < m.nextSerial) :
    ((ErrorTransportMove m srcTid dstTid k).threads dstTid).errorList.take
        (m.threads dstTid).errorList.length = (m.threads dstTid).errorList ∧
    (((ErrorTransportMove m srcTid dstTid k).threads dstTid).errorList.drop
        (m.threads dstTid).errorList.length).map payload =
      ((m.threads srcTid).errorList.drop k).map payload ∧
    (∀ e ∈ ((ErrorTransportMove m srcTid dstTid k).threads dstTid).errorList.drop
        (m.threads dstTid).errorList.length,
      ∀ e₂ ∈ (m.threads dstTid).errorList, e₂.serial < e.serial) ∧
    ((ErrorTransportMove m srcTid dstTid k).threads srcTid).errorList =
      (m.threads srcTid).errorList.take k := by
  have hd : dstTid ≠ srcTid := Ne.symm hne
  unfold ErrorTransportMove SpliceErrors
  simp only [Function.update_same, Function.update_noteq hd,
    Function.update_noteq hne, List.take_left, List.drop_left]
  refine ⟨trivial, reassignSerials_payload _ _, ?_, trivial⟩
  intro e he e₂ he₂
  have hser := (reassignSerials_serial_bounds _ _ e he).1
  exact Nat.lt_of_lt_of_le (hdst e₂ he₂) hser

/-- Concrete dispatcher state used by the transport witness: thread 1 holds
two errors. -/
def transportSample : TfDiagnosticMgr :=
  run initMgr [Op.appendError 1 5 "p" false, Op.appendError 1 6 "q" false]

theorem errorTransport_spec_witness :
    ((1 : Nat) ≠ 0 ∧
      (∀ e ∈ (transportSample.threads 0).errorList,
        e.serial < transportSample.nextSerial)) ∧
    (((ErrorTransportMove transportSample 1 0 1).threads 0).errorList.take
        (transportSample.threads 0).errorList.length =
      (transportSample.threads 0).errorList ∧
    (((ErrorTransportMove transportSample 1 0 1).threads 0).errorList.drop
        (transportSample.threads 0).errorList.length).map payload =
      ((transportSample.threads 1).errorList.drop 1).map payload ∧
    (∀ e ∈ ((ErrorTransportMove transportSample 1 0 1).threads 0).errorList.drop
        (transportSample.threads 0).errorList.length,
      ∀ e₂ ∈ (transportSample.threads 0).errorList, e₂.serial < e.serial) ∧
    ((ErrorTransportMove transportSample 1 0 1).threads 1).errorList =
      (transportSample.threads 1).errorList.take 1) :=
  ⟨⟨by decide, by decide⟩,
   errorTransport_spec transportSample 1 0 1 (by decide) (by decide)⟩

/-- C8: `SetDelegate d` installs `d` as the delegate (a null `d` clears it)
without touching any thread state; when a delegate was already installed the
call posts a warning through the normal Post path (delivered to the
still-installed old delegate), and afterwards the callbacks of subsequent
main-thread error posts go to `d` alone, so the old delegate receives no
further callbacks. -/
theorem setDelegate_spec (m : TfDiagnosticMgr) (d : Option Nat) :
    (SetDelegate m d).1.delegate = d ∧
    (SetDelegate m d).1.threads = m.threads ∧
    (∀ old, m.delegate = some old →
      (SetDelegate m d).2 =
        [Event.issueWarning old "Overwriting existing delegate"]) ∧
    (m.delegate = none → (SetDelegate m d).2 = []) ∧
    (∀ dnew, d = some dnew → ∀ errorCode commentary quietFlag,
      (Event.issueError dnew
          { errorCode := errorCode, commentary := commentary,
            quiet := quietFlag, serial := (SetDelegate m d).1.nextSerial } ∈
        (PostError (SetDelegate m d).1 0 errorCode commentary quietFlag).2.1) ∧
      (∀ dd e, Event.issueError dd e ∈
          (PostError (SetDelegate m d).1 0 errorCode commentary quietFlag).2.1 →
        dd = dnew)) := by
  cases hdel : m.delegate with
  | none =>
    refine ⟨by simp [SetDelegate, hdel], by simp [SetDelegate, hdel], ?_, ?_, ?_⟩
    · intro old hold
      exact absurd hold (by simp [hdel])
    · intro _
      simp [SetDelegate, hdel]
    · intro dnew hd errorCode commentary quietFlag
      subst hd
      constructor
      · simp [SetDelegate, hdel, PostError, isMainThread]
      · intro dd e he
        simp [SetDelegate, hdel, PostError, isMainThread] at he
        exact he.1
  | some old =>
    refine ⟨by simp [SetDelegate, hdel], ?_, ?_, ?_, ?_⟩
    · simp [SetDelegate, PostWarning, hdel, isMainThread]
    · intro old₂ hold₂
      cases hold₂
      simp [SetDelegate, PostWarning, hdel, isMainThread]
    · intro hnone
      exact absurd hnone (by simp [hdel])
    · intro dnew hd errorCode commentary quietFlag
      subst hd
      constructor
      · simp [SetDelegate, PostWarning, hdel, PostError, isMainThread]
      · intro dd e he
        simp [SetDelegate, PostWarning, hdel, PostError, isMainThread] at he
        exact he.1

theorem setDelegate_spec_witness :
    ({ initMgr with delegate := some 3 } : TfDiagnosticMgr).delegate = some 3 ∧
    (SetDelegate { initMgr with delegate := some 3 } (some 5)).1.delegate =
      some 5 ∧
    (SetDelegate { initMgr with delegate := some 3 } (some 5)).2 =
      [Event.issueWarning 3 "Overwriting existing delegate"] ∧
    (SetDelegate initMgr none).1.delegate = none :=
  ⟨by decide,
   (setDelegate_spec { initMgr with delegate := some 3 } (some 5)).1,
   (setDelegate_spec { initMgr with delegate := some 3 } (some 5)).2.2.1 3 rfl,
   (setDelegate_spec initMgr none).1⟩

/-- Number of `_CreateErrorMark` invocations for thread `tid` in an operation
sequence (one per ErrorMark construction). -/
def createCount (ops : List Op) (tid : Nat) : Nat :=
  ops.countP (fun op => op == Op.createMark tid)

/-- Number of `_DestroyErrorMark` invocations for thread `tid` in an
operation sequence (one per ErrorMark destruction). -/
def destroyCount (ops : List Op) (tid : Nat) : Nat :=
  ops.countP (fun op => op == Op.destroyMark tid)

theorem createCount_cons (op : Op) (ops : List Op) (tid : Nat) :
    createCount (op :: ops) tid =
      createCount ops tid + (if op = Op.createMark tid then 1 else 0) := by
  simp [createCount, List.countP_cons]

theorem destroyCount_cons (op : Op) (ops : List Op) (tid : Nat) :
    destroyCount (op :: ops) tid =
      destroyCount ops tid + (if op = Op.destroyMark tid then 1 else 0) := by
  simp [destroyCount, List.countP_cons]

theorem markCount_step_create (m : TfDiagnosticMgr) (tid : Nat) :
    ((step m (Op.createMark tid)).threads tid).markCount =
      (m.threads tid).markCount + 1 := by
  simp [step, CreateErrorMark, Function.update_same]

theorem markCount_step_destroy (m : TfDiagnosticMgr) (tid : Nat) :
    ((step m (Op.destroyMark tid)).threads tid).markCount =
      (m.threads tid).markCount - 1 := by
  simp [step, DestroyErrorMark, Function.update_same]

theorem markCount_transport (m : TfDiagnosticMgr) (s d k tid : Nat) :
    ((ErrorTransportMove m s d k).threads tid).markCount =
      (m.threads tid).markCount := by
  by_cases htd : tid = d
  · subst htd
    by_cases hts : tid = s
    · subst hts
      simp only [ErrorTransportMove, SpliceErrors, Function.update_same]
    · simp only [ErrorTransportMove, SpliceErrors, Function.update_same,
        Function.update_noteq hts]
  · by_cases hts : tid = s
    · subst hts
      simp only [ErrorTransportMove, SpliceErrors, Function.update_noteq htd,
        Function.update_same]
    · simp only [ErrorTransportMove, SpliceErrors, Function.update_noteq htd,
        Function.update_noteq hts]

theorem markCount_step_other (m : TfDiagnosticMgr) (op : Op) (tid : Nat)
    (h1 : op ≠ Op.createMark tid) (h2 : op ≠ Op.destroyMark tid) :
    ((step m op).threads tid).markCount = (m.threads tid).markCount := by
  cases op with
  | postError tid₂ errorCode commentary quietFlag =>
    by_cases h0 : tid₂ = 0
    · subst h0
      by_cases htt : tid = 0
      · subst htt
        simp [step, PostError, isMainThread, appendToThread, Function.update_same]
      · simp [step, PostError, isMainThread, Function.update_noteq htt]
    · simp [step, PostError, isMainThread, h0]
  | appendError tid₂ errorCode commentary quietFlag =>
    by_cases htt : tid = tid₂
    · subst htt
      simp [step, AppendError, appendToThread, Function.update_same]
    · simp [step, AppendError, Function.update_noteq htt]
  | eraseRange tid₂ first last =>
    simp only [step, EraseRange]
    split
    · by_cases htt : tid = tid₂
      · subst htt
        simp [Function.update_same]
      · simp [Function.update_noteq htt]
    · rfl
  | transport s d k => exact markCount_transport m s d k tid
  | createMark tid₂ =>
    have hne : tid ≠ tid₂ := by
      intro heq
      exact h1 (by rw [heq])
    simp [step, CreateErrorMark, Function.update_noteq hne]
  | destroyMark tid₂ =>
    have hne : tid ≠ tid₂ := by
      intro heq
      exact h2 (by rw [heq])
    simp [step, DestroyErrorMark, Function.update_noteq hne]
  | setDelegate d =>
    cases hdel : m.delegate with
    | none => simp [step, SetDelegate, hdel]
    | some old => simp [step, SetDelegate, PostWarning, hdel, isMainThread]
  | setQuiet b => rfl

theorem markCount_run (ops : List Op) (m : TfDiagnosticMgr) (tid : Nat)
    (h : ∀ n, destroyCount (ops.take n) tid ≤
        (m.threads tid).markCount + createCount (ops.take n) tid) :
    ((run m ops).threads tid).markCount =
      (m.threads tid).markCount + createCount ops tid - destroyCount ops tid := by
  induction ops generalizing m with
  | nil => simp [run, createCount, destroyCount]
  | cons op rest ih =>
    have hrun : run m (op :: rest) = run (step m op) rest := rfl
    rw [hrun, createCount_cons, destroyCount_cons]
    by_cases hc : op = Op.createMark tid
    · subst hc
      have hm := markCount_step_create m tid
      have hcond : ∀ n, destroyCount (rest.take n) tid ≤
          ((step m (Op.createMark tid)).threads tid).markCount +
            createCount (rest.take n) tid := by
        intro n
        have := h (n + 1)
        rw [List.take_succ_cons, createCount_cons, destroyCount_cons] at this
        rw [hm]
        simp at this ⊢
        omega
      rw [ih (step m (Op.createMark tid)) hcond, hm]
      simp
      omega
    · by_cases hdst : op = Op.destroyMark tid
      · subst hdst
        have hm := markCount_step_destroy m tid
        have hpos : 1 ≤ (m.threads tid).markCount := by
          have := h 1
          rw [List.take_succ_cons, List.take_zero] at this
          simpa [createCount, destroyCount] using this
        have hcond : ∀ n, destroyCount (rest.take n) tid ≤
            ((step m (Op.destroyMark tid)).threads tid).markCount +
              createCount (rest.take n) tid := by
          intro n
          have := h (n + 1)
          rw [List.take_succ_cons, createCount_cons, destroyCount_cons] at this
          rw [hm]
          simp at this ⊢
          omega
        rw [ih (step m (Op.destroyMark tid)) hcond, hm]
        simp [hc]
        omega
      · have hm := markCount_step_other m op tid hc hdst
        have hcond : ∀ n, destroyCount (rest.take n) tid ≤
            ((step m op).threads tid).markCount + createCount (rest.take n) tid := by
          intro n
          have := h (n + 1)
          rw [List.take_succ_cons, createCount_cons, destroyCount_cons] at this
          rw [hm]
          simp [hc, hdst] at this
          exact this
        rw [ih (step m op) hcond, hm]
        simp [hc, hdst]

/-- C9: for every thread and every well-scoped sequence of dispatcher
operations (no prefix destroys more marks than it created, as guaranteed by
ErrorMark's stack discipline), the thread-local mark count equals the number
of ErrorMark instances currently alive — constructions minus destructions —
and `HasActiveErrorMark` returns true exactly when that number is positive. -/
theorem markCount_tracks_live_marks (ops : List Op) (tid : Nat)
    (h : ∀ n, n ≤ ops.length →
      destroyCount (ops.take n) tid ≤ createCount (ops.take n) tid) :
    ((run initMgr ops).threads tid).markCount =
      createCount ops tid - destroyCount ops tid ∧
    (HasActiveErrorMark (run initMgr ops) tid = true ↔
      0 < createCount ops tid - destroyCount ops tid) := by
  have hfull : ∀ n, destroyCount (ops.take n) tid ≤
      (initMgr.threads tid).markCount + createCount (ops.take n) tid := by
    intro n
    rcases Nat.le_total n ops.length with hle | hge
    · simpa [initMgr, ThreadState.init] using h n hle
    · rw [List.take_of_length_le hge]
      have := h ops.length (Nat.le_refl _)
      rw [List.take_length] at this
      simpa [initMgr, ThreadState.init] using this
  have hmain := markCount_run ops initMgr tid hfull
  have hzero : (initMgr.threads tid).markCount = 0 := rfl
  rw [hzero, Nat.zero_add] at hmain
  refine ⟨hmain, ?_⟩
  rw [HasActiveErrorMark, hmain]
  simp only [bne_iff_ne, ne_eq]
  omega

theorem markCount_tracks_live_marks_witness :
    (∀ n, n ≤ ([Op.createMark 2, Op.createMark 2, Op.destroyMark 2] : List Op).length →
      destroyCount ([Op.createMark 2, Op.createMark 2, Op.destroyMark 2].take n) 2 ≤
        createCount ([Op.createMark 2, Op.createMark 2, Op.destroyMark 2].take n) 2) ∧
    (((run initMgr [Op.createMark 2, Op.createMark 2, Op.destroyMark 2]).threads 2).markCount =
      createCount [Op.createMark 2, Op.createMark 2, Op.destroyMark 2] 2 -
        destroyCount [Op.createMark 2, Op.createMark 2, Op.destroyMark 2] 2 ∧
    (HasActiveErrorMark (run initMgr [Op.createMark 2, Op.createMark 2, Op.destroyMark 2]) 2 = true ↔
      0 < createCount [Op.createMark 2, Op.createMark 2, Op.destroyMark 2] 2 -
        destroyCount [Op.createMark 2, Op.createMark 2, Op.destroyMark 2] 2)) :=
  ⟨by decide,
   markCount_tracks_live_marks [Op.createMark 2, Op.createMark 2, Op.destroyMark 2] 2
     (by decide)⟩

/-- Whether an operation addresses thread `tid` (appends an error to it,
erases from it, splices into or out of it, or constructs/destroys a mark on
it). -/
def touches (op : Op) (tid : Nat) : Bool :=
  match op with
  | Op.postError t _ _ _ => t == tid
  | Op.appendError t _ _ _ => t == tid
  | Op.eraseRange t _ _ => t == tid
  | Op.transport s d _ => s == tid || d == tid
  | Op.createMark t => t == tid
  | Op.destroyMark t => t == tid
  | Op.setDelegate _ => false
  | Op.setQuiet _ => false

theorem step_untouched (m : TfDiagnosticMgr) (op : Op) (tid : Nat)
    (h : touches op tid = false) :
    (step m op).threads tid = m.threads tid := by
  cases op with
  | postError tid₂ errorCode commentary quietFlag =>
    simp only [touches, beq_eq_false_iff_ne, ne_eq] at h
    by_cases h0 : tid₂ = 0
    · subst h0
      simp [step, PostError, isMainThread, Function.update_noteq (Ne.symm h)]
    · simp [step, PostError, isMainThread, h0]
  | appendError tid₂ errorCode commentary quietFlag =>
    simp only [touches, beq_eq_false_iff_ne, ne_eq] at h
    simp [step, AppendError, Function.update_noteq (Ne.symm h)]
  | eraseRange tid₂ first last =>
    simp only [touches, beq_eq_false_iff_ne, ne_eq] at h
    simp only [step, EraseRange]
    split
    · simp [Function.update_noteq (Ne.symm h)]
    · rfl
  | transport s d k =>
    simp only [touches, Bool.or_eq_false_iff, beq_eq_false_iff_ne, ne_eq] at h
    simp only [step, ErrorTransportMove, SpliceErrors,
      Function.update_noteq (Ne.symm h.2), Function.update_noteq (Ne.symm h.1)]
  | createMark tid₂ =>
    simp only [touches, beq_eq_false_iff_ne, ne_eq] at h
    simp [step, CreateErrorMark, Function.update_noteq (Ne.symm h)]
  | destroyMark tid₂ =>
    simp only [touches, beq_eq_false_iff_ne, ne_eq] at h
    simp [step, DestroyErrorMark, Function.update_noteq (Ne.symm h)]
  | setDelegate d =>
    cases hdel : m.delegate with
    | none => simp [step, SetDelegate, hdel]
    | some old => simp [step, SetDelegate, PostWarning, hdel, isMainThread]
  | setQuiet b => rfl

theorem run_untouched (ops : List Op) (m : TfDiagnosticMgr) (tid : Nat)
    (h : ∀ op ∈ ops, touches op tid = false) :
    (run m ops).threads tid = m.threads tid := by
  induction ops generalizing m with
  | nil => rfl
  | cons op rest ih =>
    have hrun : run m (op :: rest) = run (step m op) rest := rfl
    rw [hrun, ih (step m op) (fun o ho => h o (List.mem_cons_of_mem op ho)),
      step_untouched m op tid (h op (List.mem_cons_self op rest))]

/-- C10: a thread that no operation has addressed (no error appended, no mark
constructed) still has its lazily created default state: the error list is
the default-constructed empty list, the mark count is zero-initialized, so
`GetErrorBegin` equals `GetErrorEnd` and `HasActiveErrorMark` returns
false. -/
theorem untouched_thread_state_initial (ops : List Op) (tid : Nat)
    (h : ∀ op ∈ ops, touches op tid = false) :
    (run initMgr ops).threads tid = ThreadState.init ∧
    GetErrorBegin (run initMgr ops) tid = GetErrorEnd (run initMgr ops) tid ∧
    HasActiveErrorMark (run initMgr ops) tid = false ∧
    ((run initMgr ops).threads tid).errorList = [] ∧
    ((run initMgr ops).threads tid).markCount = 0 := by
  have hstate : (run initMgr ops).threads tid = ThreadState.init :=
    run_untouched ops initMgr tid h
  refine ⟨hstate, ?_, ?_, ?_, ?_⟩
  · rw [GetErrorBegin, GetErrorEnd, hstate]
    rfl
  · rw [HasActiveErrorMark, hstate]
    rfl
  · rw [hstate]
    rfl
  · rw [hstate]
    rfl

theorem untouched_thread_state_initial_witness :
    (∀ op ∈ ([Op.postError 0 1 "a" false, Op.createMark 3] : List Op),
      touches op 5 = false) ∧
    ((run initMgr [Op.postError 0 1 "a" false, Op.createMark 3]).threads 5 =
        ThreadState.init ∧
      GetErrorBegin (run initMgr [Op.postError 0 1 "a" false, Op.createMark 3]) 5 =
        GetErrorEnd (run initMgr [Op.postError 0 1 "a" false, Op.createMark 3]) 5 ∧
      HasActiveErrorMark
        (run initMgr [Op.postError 0 1 "a" false, Op.createMark 3]) 5 = false ∧
      ((run initMgr [Op.postError 0 1 "a" false, Op.createMark 3]).threads 5).errorList =
        [] ∧
      ((run initMgr [Op.postError 0 1 "a" false, Op.createMark 3]).threads 5).markCount =
        0) :=
  ⟨by decide,
   untouched_thread_state_initial [Op.postError 0 1 "a" false, Op.createMark 3] 5
     (by decide)⟩
